import Mathlib

/-!
# Verification of the Speechmatics ASR client core

Shallow embedding of the Speechmatics ASR extension
(`speechmatics_asr_python`: `asr_client.py`, `config.py`, `extension.py`)
and proofs about its audio conditioning, timeline reconciliation,
word/sentence aggregation, credential rotation and error routing.

Python `float` arithmetic is modelled with exact rationals (`ℚ`),
Python `int` with `Int`, byte strings with `List Nat` (each entry < 256).
-/

namespace SpeechmaticsASR

/-- Truncation toward zero on rationals: the semantics of Python `int(x)`
applied to a float value. -/
def truncQ (q : ℚ) : Int := if 0 ≤ q then ⌊q⌋ else ⌈q⌉

lemma truncQ_mono {a b : ℚ} (h : a ≤ b) : truncQ a ≤ truncQ b := by
  unfold truncQ
  by_cases ha : 0 ≤ a
  · rw [if_pos ha, if_pos (le_trans ha h)]
    exact Int.floor_le_floor h
  · rw [if_neg ha]
    by_cases hb : 0 ≤ b
    · rw [if_pos hb]
      have h1 : (⌈a⌉ : Int) ≤ 0 := Int.ceil_le.mpr (by exact_mod_cast le_of_not_le ha)
      have h2 : (0 : Int) ≤ ⌊b⌋ := Int.floor_nonneg.mpr hb
      omega
    · rw [if_neg hb]
      exact Int.ceil_le_ceil h

lemma truncQ_intCast (n : Int) : truncQ ((n : ℚ)) = n := by
  unfold truncQ
  split
  · exact Int.floor_intCast n
  · exact Int.ceil_intCast n

lemma truncQ_le_of_le_int {q : ℚ} {n : Int} (h : q ≤ (n : ℚ)) : truncQ q ≤ n := by
  have h2 := truncQ_mono h
  rwa [truncQ_intCast] at h2

lemma int_le_truncQ_of_le {n : Int} {q : ℚ} (h : (n : ℚ) ≤ q) : n ≤ truncQ q := by
  have h2 := truncQ_mono h
  rwa [truncQ_intCast] at h2

/-! ## Audio conditioning (`SpeechmaticsASRClient.recv_audio_frame`)

The frame buffer is unpacked as little-endian signed 16-bit samples,
each sample is multiplied by the configured gain and clipped to the
signed 16-bit range, and the result is re-packed and queued. -/

/-- Clipping to the signed 16-bit range:
`amplified = max(-32768, min(32767, amplified))`. -/
def clip (x : Int) : Int := max (-32768) (min 32767 x)

/-- One sample of the gain stage: `int(sample * gain_factor)` followed by
clipping (`asr_client.py` lines 246-248). -/
def conditionSample (gain : ℚ) (s : Int) : Int := clip (truncQ ((s : ℚ) * gain))

/-- `struct.unpack(f'<{n}h', buf)`: decode little-endian signed 16-bit samples
from consecutive byte pairs. -/
def decodePairsLE : List Nat → List Int
  | b0 :: b1 :: rest =>
      (let v : Int := (b0 : Int) + 256 * (b1 : Int)
       if 32768 ≤ v then v - 65536 else v) :: decodePairsLE rest
  | _ => []

/-- `struct.pack('<h', s)`: encode one signed 16-bit sample as two
little-endian bytes. -/
def encodeSampleLE (s : Int) : List Nat :=
  let u := (Int.emod s 65536).toNat
  [u % 256, u / 256]

/-- Outcome of one `recv_audio_frame` call: early return on an empty frame
(warning logged, nothing queued), bytes queued, or the exception handler
reached (error logged, a `FATAL_ERROR` module error emitted, nothing
queued). -/
inductive RecvResult
  | emptyWarn
  | queued (out : List Nat)
  | fatalError
deriving DecidableEq

/-- `SpeechmaticsASRClient.recv_audio_frame` (`asr_client.py` lines 222-279),
audio-path only. `num_samples = len(buf) // 2`; when `num_samples > 0`
the code calls `struct.unpack(f'<{num_samples}h', frame_buf)`, which raises
`struct.error` unless the buffer length is exactly `2 * num_samples`
(so every odd-length buffer of three or more bytes lands in the `except`
branch); when `num_samples == 0` the original (single-byte) buffer is queued
unchanged after a warning. -/
def recv_audio_frame (gain : ℚ) (buf : List Nat) : RecvResult :=
  if buf = [] then RecvResult.emptyWarn
  else
    let numSamples := buf.length / 2
    if 0 < numSamples then
      if buf.length % 2 = 0 then
        RecvResult.queued
          (((decodePairsLE buf).map (conditionSample gain)).map encodeSampleLE).flatten
      else RecvResult.fatalError
    else RecvResult.queued buf

/-- C5 counterexample: with gain `3/2` and sample `1`, the product `3/2` is
inside the signed 16-bit range, yet the conditioned sample is `1`
(Python `int()` truncates toward zero) while `round(3/2) = 2`. -/
theorem c5_counterexample :
    ((-32768 : ℚ) ≤ ((1 : Int) : ℚ) * (3/2) ∧ ((1 : Int) : ℚ) * (3/2) ≤ 32767)
    ∧ conditionSample (3/2) 1 = 1
    ∧ round (((1 : Int) : ℚ) * (3/2)) = 2
    ∧ conditionSample (3/2) 1 ≠ round (((1 : Int) : ℚ) * (3/2)) := by
  norm_num [conditionSample, clip, truncQ, round_eq]

/-- C5 (amended): every conditioned sample lies in `[-32768, 32767]`
(saturation, no wraparound), and whenever `s * g` already lies in that
range the conditioned sample equals `s * g` truncated toward zero
(Python `int()`), not `round(s * g)`. -/
theorem c5_gain_clipping (g : ℚ) (s : Int) :
    ((-32768 : Int) ≤ conditionSample g s ∧ conditionSample g s ≤ 32767)
    ∧ ((-32768 : ℚ) ≤ (s : ℚ) * g → (s : ℚ) * g ≤ 32767 →
        conditionSample g s = truncQ ((s : ℚ) * g)) := by
  constructor
  · unfold conditionSample clip
    exact ⟨le_max_left _ _, max_le (by norm_num) (min_le_left _ _)⟩
  · intro h1 h2
    unfold conditionSample clip
    have hl : (-32768 : Int) ≤ truncQ ((s : ℚ) * g) :=
      int_le_truncQ_of_le (by exact_mod_cast h1)
    have hu : truncQ ((s : ℚ) * g) ≤ 32767 :=
      truncQ_le_of_le_int (by exact_mod_cast h2)
    rw [min_eq_right hu, max_eq_right hl]

theorem c5_gain_clipping_witness :
    ((-32768 : ℚ) ≤ ((100 : Int) : ℚ) * 2 ∧ ((100 : Int) : ℚ) * 2 ≤ 32767)
    ∧ conditionSample 2 100 = truncQ (((100 : Int) : ℚ) * 2) :=
  ⟨⟨by norm_num, by norm_num⟩, (c5_gain_clipping 2 100).2 (by norm_num) (by norm_num)⟩

/-- C6 counterexample: a 3-byte (odd-length) frame does not pass its
trailing byte through; `struct.unpack` raises on the size mismatch, so the
frame lands in the exception handler (fatal error emitted, nothing queued). -/
theorem c6_counterexample :
    recv_audio_frame 7 [1, 2, 3] = RecvResult.fatalError
    ∧ recv_audio_frame 7 [1, 2, 3] ≠ RecvResult.queued [1, 2, 3] := by
  decide

/-- C6 (amended): an empty frame returns early with a logged warning, no
error and nothing queued; a 1-byte frame (zero complete samples) is queued
unchanged after a warning; an odd-length frame of three or more bytes makes
`struct.unpack` raise, so a fatal error is emitted and the frame is dropped. -/
theorem c6_odd_and_empty_frames (g : ℚ) (buf : List Nat) :
    (buf = [] → recv_audio_frame g buf = RecvResult.emptyWarn)
    ∧ (buf.length = 1 → recv_audio_frame g buf = RecvResult.queued buf)
    ∧ (buf.length % 2 = 1 → 3 ≤ buf.length →
        recv_audio_frame g buf = RecvResult.fatalError) := by
  refine ⟨fun h => by simp [recv_audio_frame, h], fun h => ?_, fun h1 h2 => ?_⟩
  · have hne : buf ≠ [] := by cases buf <;> simp_all
    simp [recv_audio_frame, hne, h]
  · have hne : buf ≠ [] := by cases buf <;> simp_all
    have hgt : 0 < buf.length / 2 := by omega
    simp [recv_audio_frame, hne, hgt, h1]

theorem c6_odd_and_empty_frames_witness :
    recv_audio_frame 7 [] = RecvResult.emptyWarn
    ∧ recv_audio_frame 7 [5] = RecvResult.queued [5]
    ∧ recv_audio_frame 7 [1, 2, 3] = RecvResult.fatalError :=
  ⟨(c6_odd_and_empty_frames 7 []).1 rfl,
   (c6_odd_and_empty_frames 7 [5]).2.1 rfl,
   (c6_odd_and_empty_frames 7 [1, 2, 3]).2.2 rfl (by decide)⟩

/-! ## Credential rotation (`config.py`, `SpeechmaticsASRConfig`)

Only the key-rotation fields of the configuration are modelled:
`api_keys`, `key` (legacy single key), `current_key_index` and
`attempted_key_indices`. Python integers are `Int`; Python `%` on
integers agrees with `Int.emod` (the `%` instance used here). -/

structure KeyConfig where
  api_keys : List String
  key : String
  current_key_index : Int
  attempted_key_indices : List Int
deriving DecidableEq

/-- The scan inside `get_next_key`: for `i in range(len(api_keys))` try
`(current_key_index + 1 + i) % len(api_keys)` and return the first index
not in `attempted_key_indices`. -/
def scanNext (n : Nat) (cur : Int) (att : List Int) : Option Int :=
  ((List.range n).map (fun (i : Nat) => (cur + 1 + (i : Int)) % (n : Int))).find?
    (fun j => decide (j ∉ att))

/-- `SpeechmaticsASRConfig.get_current_key` (`config.py` lines 77-88).
Returns the possibly-mutated config (the index is reset to 0 when out of
bounds) together with the selected key. -/
def get_current_key (c : KeyConfig) : KeyConfig × String :=
  if 0 < c.api_keys.length then
    if 0 ≤ c.current_key_index ∧ c.current_key_index < (c.api_keys.length : Int) then
      (c, c.api_keys.getD c.current_key_index.toNat "")
    else ({ c with current_key_index := 0 }, c.api_keys.getD 0 "")
  else (c, c.key)

/-- `SpeechmaticsASRConfig.get_next_key` (`config.py` lines 90-108).
The current index is appended to `attempted_key_indices` (if absent) even
when the subsequent scan fails; `none` models the raised `ValueError`. -/
def get_next_key (c : KeyConfig) : KeyConfig × Option String :=
  if 1 < c.api_keys.length then
    let att := if c.current_key_index ∈ c.attempted_key_indices
               then c.attempted_key_indices
               else c.attempted_key_indices ++ [c.current_key_index]
    match scanNext c.api_keys.length c.current_key_index att with
    | some j =>
        ({ c with attempted_key_indices := att, current_key_index := j },
         some (c.api_keys.getD j.toNat ""))
    | none => ({ c with attempted_key_indices := att }, none)
  else
    let r := get_current_key c
    (r.1, some r.2)

/-- `SpeechmaticsASRConfig.has_multiple_keys` (`config.py` lines 110-112). -/
def has_multiple_keys (c : KeyConfig) : Bool := 1 < c.api_keys.length

/-- `SpeechmaticsASRConfig.has_unattempted_keys` (`config.py` lines 114-118). -/
def has_unattempted_keys (c : KeyConfig) : Bool :=
  if c.api_keys.length ≤ 1 then false
  else c.attempted_key_indices.length < c.api_keys.length

/-- `SpeechmaticsASRConfig.reset_key_rotation` (`config.py` lines 120-123). -/
def reset_key_rotation (c : KeyConfig) : KeyConfig :=
  { c with current_key_index := 0, attempted_key_indices := [] }

/-- `k` successive `get_next_key` calls; `none` as soon as one raises. -/
def rotateIter : Nat → KeyConfig → Option KeyConfig
  | 0, c => some c
  | k + 1, c =>
      match get_next_key c with
      | (c1, some _) => rotateIter k c1
      | (_, none) => none

/-- Invariant of every rotator state reachable from a reset:
indices are in range, the attempted list has no duplicates and does not
contain the current index. -/
abbrev RotInv (n : Nat) (c : KeyConfig) : Prop :=
  c.api_keys.length = n
  ∧ (0 ≤ c.current_key_index ∧ c.current_key_index < (n : Int))
  ∧ (∀ j ∈ c.attempted_key_indices, 0 ≤ j ∧ j < (n : Int))
  ∧ c.attempted_key_indices.Nodup
  ∧ c.current_key_index ∉ c.attempted_key_indices

lemma scanNext_some_props {n : Nat} {cur : Int} {att : List Int} {j : Int}
    (h : scanNext n cur att = some j) : j ∉ att ∧ 0 ≤ j ∧ j < (n : Int) := by
  have hp := List.find?_some h
  have hm := List.mem_of_find?_eq_some h
  simp only [List.mem_map, List.mem_range] at hm
  obtain ⟨i, hi, hj⟩ := hm
  have hn0 : 0 < n := by omega
  have hn : (0 : Int) < (n : Int) := by exact_mod_cast hn0
  refine ⟨by simpa using hp, ?_, ?_⟩
  · rw [← hj]; exact Int.emod_nonneg _ (by omega)
  · rw [← hj]; exact Int.emod_lt_of_pos _ hn

lemma scanNext_eq_none {n : Nat} {cur : Int} {att : List Int}
    (h : ∀ j : Int, 0 ≤ j → j < (n : Int) → j ∈ att) : scanNext n cur att = none := by
  apply List.find?_eq_none.mpr
  intro x hx
  simp only [List.mem_map, List.mem_range] at hx
  obtain ⟨i, hi, hj⟩ := hx
  have hn0 : 0 < n := by omega
  have hn : (0 : Int) < (n : Int) := by exact_mod_cast hn0
  have h0 : 0 ≤ x := by rw [← hj]; exact Int.emod_nonneg _ (by omega)
  have h1 : x < (n : Int) := by rw [← hj]; exact Int.emod_lt_of_pos _ hn
  simp [h x h0 h1]

lemma scanNext_isSome (n : Nat) (cur : Int) (att : List Int) {j : Int}
    (h0 : 0 ≤ j) (h1 : j < (n : Int)) (h2 : j ∉ att) :
    ∃ k, scanNext n cur att = some k := by
  have hn : (0 : Int) < (n : Int) := lt_of_le_of_lt h0 h1
  have hmem : j ∈ (List.range n).map (fun (i : Nat) => (cur + 1 + (i : Int)) % (n : Int)) := by
    simp only [List.mem_map, List.mem_range]
    refine ⟨((j - (cur + 1)) % (n : Int)).toNat, ?_, ?_⟩
    · have ha := Int.emod_lt_of_pos (j - (cur + 1)) hn
      have hb : 0 ≤ (j - (cur + 1)) % (n : Int) := Int.emod_nonneg _ (by omega)
      omega
    · have hb : 0 ≤ (j - (cur + 1)) % (n : Int) := Int.emod_nonneg _ (by omega)
      rw [Int.toNat_of_nonneg hb]
      have hstep : ∀ a b : Int, (a + b % (n : Int)) % (n : Int) = (a + b) % (n : Int) := by
        intro a b
        rw [Int.add_emod, Int.emod_emod_of_dvd _ dvd_rfl, ← Int.add_emod]
      rw [hstep]
      have harith : cur + 1 + (j - (cur + 1)) = j := by ring
      rw [harith]
      exact Int.emod_eq_of_lt h0 h1
  have hsome : (((List.range n).map (fun (i : Nat) => (cur + 1 + (i : Int)) % (n : Int))).find?
      (fun j => decide (j ∉ att))).isSome :=
    List.find?_isSome.mpr ⟨j, hmem, by simpa using h2⟩
  exact Option.isSome_iff_exists.mp hsome

lemma exists_uncovered (n : Nat) (att : List Int) (hlen : att.length < n) :
    ∃ j : Int, 0 ≤ j ∧ j < (n : Int) ∧ j ∉ att := by
  by_contra hc
  push_neg at hc
  have hsub : Finset.Icc (0 : Int) ((n : Int) - 1) ⊆ att.toFinset := by
    intro x hx
    rw [Finset.mem_Icc] at hx
    exact List.mem_toFinset.mpr (hc x hx.1 (by omega))
  have hcard := Finset.card_le_card hsub
  rw [Int.card_Icc] at hcard
  have h2 : att.toFinset.card ≤ att.length := List.toFinset_card_le att
  omega

lemma covered_of_full {n : Nat} {att : List Int}
    (hr : ∀ j ∈ att, 0 ≤ j ∧ j < (n : Int)) (hnd : att.Nodup) (hlen : n ≤ att.length) :
    ∀ j : Int, 0 ≤ j → j < (n : Int) → j ∈ att := by
  intro j h0 h1
  by_contra hj
  have hsub : att.toFinset ⊆ (Finset.Icc (0 : Int) ((n : Int) - 1)).erase j := by
    intro x hx
    rw [List.mem_toFinset] at hx
    refine Finset.mem_erase.mpr ⟨?_, ?_⟩
    · rintro rfl; exact hj hx
    · rw [Finset.mem_Icc]
      have := hr x hx
      omega
  have hcard := Finset.card_le_card hsub
  rw [Finset.card_erase_of_mem (by rw [Finset.mem_Icc]; omega), Int.card_Icc,
      List.toFinset_card_of_nodup hnd] at hcard
  omega

/-- Under the rotation invariant the attempted list never covers all
indices (the current index is always outside it). -/
lemma attempted_length_lt_of_inv {n : Nat} {c : KeyConfig} (inv : RotInv n c) :
    c.attempted_key_indices.length < n := by
  obtain ⟨hlen, hcur, hatt, hnd, hmem⟩ := inv
  by_contra h
  push_neg at h
  exact hmem (covered_of_full hatt hnd h c.current_key_index hcur.1 hcur.2)

/-- From a state satisfying the rotation invariant, `get_next_key` either
moves to a fresh index (distinct from every attempted index and from the
current one) or raises, and it can only raise when the attempted list plus
the current index already exhaust all `n` indices. Either way the current
index is recorded as attempted. -/
lemma get_next_key_step {n : Nat} {c : KeyConfig} (inv : RotInv n c) (hn : 1 < n) :
    (∃ j, get_next_key c
        = ({ c with
              attempted_key_indices := c.attempted_key_indices ++ [c.current_key_index],
              current_key_index := j },
           some (c.api_keys.getD j.toNat ""))
        ∧ j ∉ c.attempted_key_indices ∧ j ≠ c.current_key_index ∧ 0 ≤ j ∧ j < (n : Int))
    ∨ (get_next_key c
        = ({ c with
              attempted_key_indices := c.attempted_key_indices ++ [c.current_key_index] },
           none)
        ∧ n ≤ c.attempted_key_indices.length + 1) := by
  obtain ⟨hlen, hcur, hatt, hnd, hmem⟩ := inv
  subst hlen
  have hlen1 : 1 < c.api_keys.length := hn
  unfold get_next_key
  rw [if_pos hlen1]
  simp only [if_neg hmem]
  rcases hscan : scanNext c.api_keys.length c.current_key_index
      (c.attempted_key_indices ++ [c.current_key_index]) with _ | j
  · right
    refine ⟨rfl, ?_⟩
    by_contra hlt
    push_neg at hlt
    obtain ⟨j, hj0, hj1, hjm⟩ :=
      exists_uncovered c.api_keys.length
        (c.attempted_key_indices ++ [c.current_key_index]) (by simp; omega)
    obtain ⟨k, hk⟩ := scanNext_isSome c.api_keys.length c.current_key_index
      (c.attempted_key_indices ++ [c.current_key_index]) hj0 hj1 hjm
    rw [hscan] at hk
    exact Option.noConfusion hk
  · left
    obtain ⟨hnotmem, hj0, hj1⟩ := scanNext_some_props hscan
    simp only [List.mem_append, List.mem_singleton] at hnotmem
    push_neg at hnotmem
    exact ⟨j, rfl, hnotmem.1, hnotmem.2, hj0, hj1⟩

/-- Starting from any invariant state, `k` consecutive rotations cannot all
succeed once `attempted_key_indices.length + k` reaches the key count. -/
lemma rotateIter_none {n : Nat} (hn : 1 < n) :
    ∀ (k : Nat) (c : KeyConfig), RotInv n c →
      n ≤ c.attempted_key_indices.length + k → rotateIter k c = none := by
  intro k
  induction k with
  | zero =>
      intro c inv hle
      exfalso
      obtain ⟨hlen, hcur, hatt, hnd, hmem⟩ := inv
      exact hmem (covered_of_full hatt hnd (by omega) c.current_key_index hcur.1 hcur.2)
  | succ k ih =>
      intro c inv hle
      rcases get_next_key_step inv hn with ⟨j, heq, hj1, hj2, hj3, hj4⟩ | ⟨heq, hge⟩
      · unfold rotateIter
        rw [heq]
        obtain ⟨hlen, hcur, hatt, hnd, hmem⟩ := inv
        apply ih
        · refine ⟨by simpa using hlen, ⟨hj3, hj4⟩, ?_, ?_, ?_⟩
          · intro x hx
            simp only [List.mem_append, List.mem_singleton] at hx
            rcases hx with hx | hx
            · exact hatt x hx
            · subst hx; exact hcur
          · simp [List.nodup_append, hnd, hmem]
          · simp only [List.mem_append, List.mem_singleton]
            push_neg
            exact ⟨hj1, hj2⟩
        · simp only [List.length_append, List.length_singleton]
          omega
      · unfold rotateIter
        rw [heq]

/-- C4: `get_next_key` never returns an index already in
`attempted_key_indices`, and from a freshly reset rotation state with
`n > 1` keys it is impossible for `n` consecutive rotations to succeed
(at most `n - 1` succeed before the `ValueError`). -/
theorem c4_rotator_never_reuses_attempted :
    (∀ (c c1 : KeyConfig) (s : String), 1 < c.api_keys.length →
        get_next_key c = (c1, some s) →
        c1.current_key_index ∉ c.attempted_key_indices)
    ∧ (∀ (c : KeyConfig) (n : Nat), c.api_keys.length = n → 1 < n →
        rotateIter n (reset_key_rotation c) = none) := by
  constructor
  · intro c c1 s hlen h
    unfold get_next_key at h
    rw [if_pos hlen] at h
    by_cases hmem : c.current_key_index ∈ c.attempted_key_indices
    · simp only [if_pos hmem] at h
      rcases hscan : scanNext c.api_keys.length c.current_key_index
          c.attempted_key_indices with _ | j
      · rw [hscan] at h
        exact absurd (congrArg Prod.snd h) (by simp)
      · rw [hscan] at h
        obtain ⟨hnotmem, -, -⟩ := scanNext_some_props hscan
        injection h with h1 h2
        rw [← h1]
        exact hnotmem
    · simp only [if_neg hmem] at h
      rcases hscan : scanNext c.api_keys.length c.current_key_index
          (c.attempted_key_indices ++ [c.current_key_index]) with _ | j
      · rw [hscan] at h
        exact absurd (congrArg Prod.snd h) (by simp)
      · rw [hscan] at h
        obtain ⟨hnotmem, -, -⟩ := scanNext_some_props hscan
        injection h with h1 h2
        rw [← h1]
        simp only [List.mem_append, List.mem_singleton] at hnotmem
        push_neg at hnotmem
        exact hnotmem.1
  · intro c n hlen hn
    apply rotateIter_none hn n
    · refine ⟨by simpa [reset_key_rotation] using hlen, ?_, ?_, ?_, ?_⟩
      · constructor
        · simp [reset_key_rotation]
        · simp only [reset_key_rotation]
          omega
      · simp [reset_key_rotation]
      · simp [reset_key_rotation]
      · simp [reset_key_rotation]
    · simp [reset_key_rotation]

theorem c4_rotator_never_reuses_attempted_witness :
    ((⟨["a", "b"], "", 1, [0]⟩ : KeyConfig).current_key_index ∉
      (⟨["a", "b"], "", 0, []⟩ : KeyConfig).attempted_key_indices)
    ∧ rotateIter 2 (reset_key_rotation ⟨["a", "b"], "", 0, []⟩) = none :=
  ⟨c4_rotator_never_reuses_attempted.1 ⟨["a", "b"], "", 0, []⟩ ⟨["a", "b"], "", 1, [0]⟩ "b"
      (by decide) (by decide),
   c4_rotator_never_reuses_attempted.2 ⟨["a", "b"], "", 0, []⟩ 2 (by decide) (by decide)⟩

/-! ## Error classification and key failover (`extension.py`)

`on_asr_error` classifies the error message against a keyword table and
either rotates the API key and reconnects or surfaces the error.
Connection attempts are abstracted by a `connectOk` oracle mapping the key
index tried to success/failure; the Python recursion in
`_rotate_api_key_and_reconnect` is modelled with explicit fuel (every
recursive call strictly shrinks the unattempted set, and the callers below
pass enough fuel that the fuel-exhausted branch is unreachable). -/

/-- `ModuleErrorCode` values used by the extension. -/
inductive ModuleErrorCode
  | FATAL_ERROR
  | NON_FATAL_ERROR
deriving DecidableEq

/-- Externally visible effects of the error handler. -/
inductive ErrAction
  | sentError (code : ModuleErrorCode)
  | reconnected (keyIndex : Int)
deriving DecidableEq

/-- Python `str.lower()` restricted to the ASCII messages involved. -/
def toLowerStr (msg : String) : List Char := msg.data.map Char.toLower

/-- The quota/authorization keyword table (`extension.py` lines 272-277). -/
def quota_keywords : List String :=
  ["quota", "credit", "limit", "exceeded", "401", "403", "402",
   "unauthorized", "forbidden", "payment required",
   "no credits", "insufficient", "balance"]

/-- `any(keyword in error_lower for keyword in quota_keywords)`
(`extension.py` line 279). -/
def isQuotaError (msg : String) : Bool :=
  quota_keywords.any (fun k => decide (List.IsInfix k.data (toLowerStr msg)))

/-- `SpeechmaticsASRExtension._rotate_api_key_and_reconnect`
(`extension.py` lines 300-362): no-op without multiple keys; one fatal
error when no unattempted key remains; otherwise `get_next_key`, then
reconnect with the new key (`ErrAction.reconnected`), retrying recursively
on connection failure while unattempted keys remain. -/
def rotate_api_key_and_reconnect (connectOk : Int → Bool) :
    Nat → KeyConfig → KeyConfig × List ErrAction
  | 0, c => (c, [])
  | fuel + 1, c =>
      if has_multiple_keys c = false then (c, [])
      else if has_unattempted_keys c = false then
        (c, [ErrAction.sentError ModuleErrorCode.FATAL_ERROR])
      else
        match get_next_key c with
        | (c1, none) => (c1, [ErrAction.sentError ModuleErrorCode.FATAL_ERROR])
        | (c1, some _) =>
            if connectOk c1.current_key_index then
              (c1, [ErrAction.reconnected c1.current_key_index])
            else if has_unattempted_keys c1 then
              rotate_api_key_and_reconnect connectOk fuel c1
            else (c1, [ErrAction.sentError ModuleErrorCode.FATAL_ERROR])

/-- `SpeechmaticsASRExtension.on_asr_error` (`extension.py` lines 259-298):
rotate on a quota-classified error with multiple keys, otherwise surface a
non-fatal error with vendor info. -/
def on_asr_error (connectOk : Int → Bool) (c : KeyConfig) (msg : String) :
    KeyConfig × List ErrAction :=
  if isQuotaError msg && has_multiple_keys c then
    rotate_api_key_and_reconnect connectOk (c.api_keys.length + 1) c
  else (c, [ErrAction.sentError ModuleErrorCode.NON_FATAL_ERROR])

/-- C3: on a quota-classified error with multiple configured keys, while a
key other than the failing current one is still unattempted the handler
rotates to such a key and reconnects without surfacing any error; once the
attempted set plus the current key covers all keys, it emits exactly one
fatal error and makes no reconnect attempt. -/
theorem c3_quota_rotation (c : KeyConfig) (n : Nat) (msg : String)
    (inv : RotInv n c) (hn : 1 < n) (hq : isQuotaError msg = true) :
    (c.attempted_key_indices.length + 1 < n →
       ∃ j, on_asr_error (fun _ => true) c msg
           = ({ c with
                 attempted_key_indices :=
                   c.attempted_key_indices ++ [c.current_key_index],
                 current_key_index := j },
              [ErrAction.reconnected j])
         ∧ j ∉ c.attempted_key_indices ∧ j ≠ c.current_key_index)
    ∧ (c.attempted_key_indices.length + 1 = n →
       ∀ connectOk, on_asr_error connectOk c msg
           = ({ c with
                 attempted_key_indices :=
                   c.attempted_key_indices ++ [c.current_key_index] },
              [ErrAction.sentError ModuleErrorCode.FATAL_ERROR])) := by
  have hlen : c.api_keys.length = n := inv.1
  have hm : has_multiple_keys c = true := by
    unfold has_multiple_keys
    simp only [hlen]
    exact decide_eq_true hn
  have hu : has_unattempted_keys c = true := by
    unfold has_unattempted_keys
    rw [hlen, if_neg (by omega)]
    exact decide_eq_true (attempted_length_lt_of_inv inv)
  constructor
  · intro hlt
    rcases get_next_key_step inv hn with ⟨j, heq, hj1, hj2, hj3, hj4⟩ | ⟨heq, hge⟩
    · refine ⟨j, ?_, hj1, hj2⟩
      unfold on_asr_error
      rw [if_pos (by rw [hq, hm]; rfl), hlen]
      simp only [rotate_api_key_and_reconnect, hm, hu, heq]
      rfl
    · omega
  · intro heqn connectOk
    rcases get_next_key_step inv hn with ⟨j, heq, hj1, hj2, hj3, hj4⟩ | ⟨heq, hge⟩
    · exfalso
      obtain ⟨-, hcur, hatt, hnd, hmem⟩ := inv
      have hcov : j ∈ c.attempted_key_indices ++ [c.current_key_index] := by
        refine covered_of_full (n := n) ?_ ?_ ?_ j hj3 hj4
        · intro x hx
          simp only [List.mem_append, List.mem_singleton] at hx
          rcases hx with hx | hx
          · exact hatt x hx
          · subst hx; exact hcur
        · simp [List.nodup_append, hnd, hmem]
        · simp only [List.length_append, List.length_singleton]
          omega
      simp only [List.mem_append, List.mem_singleton] at hcov
      rcases hcov with hcov | hcov
      · exact hj1 hcov
      · exact hj2 hcov
    · unfold on_asr_error
      rw [if_pos (by rw [hq, hm]; rfl), hlen]
      simp only [rotate_api_key_and_reconnect, hm, hu, heq]
      rfl

theorem c3_quota_rotation_witness :
    ∃ j, on_asr_error (fun _ => true) ⟨["k1", "k2", "k3"], "", 0, []⟩ "quota exceeded"
        = ({ (⟨["k1", "k2", "k3"], "", 0, []⟩ : KeyConfig) with
              attempted_key_indices :=
                (⟨["k1", "k2", "k3"], "", 0, []⟩ : KeyConfig).attempted_key_indices
                  ++ [(⟨["k1", "k2", "k3"], "", 0, []⟩ : KeyConfig).current_key_index],
              current_key_index := j },
           [ErrAction.reconnected j])
      ∧ j ∉ (⟨["k1", "k2", "k3"], "", 0, []⟩ : KeyConfig).attempted_key_indices
      ∧ j ≠ (⟨["k1", "k2", "k3"], "", 0, []⟩ : KeyConfig).current_key_index :=
  (c3_quota_rotation ⟨["k1", "k2", "k3"], "", 0, []⟩ 3 "quota exceeded"
    (by decide) (by decide) (by decide)).1 (by decide)

/-! ## Result aggregation (`asr_client.py`)

Provider messages are key/value structures; the fields the handlers read
are modelled as records. A malformed message entry (one on which the
Python attribute/key accesses raise) is the `RItem.bad` constructor. -/

/-- `SpeechmaticsASRWord` (constructed at `asr_client.py` lines 530-537). -/
structure SpeechmaticsASRWord where
  word : String
  start_ms : Int
  duration_ms : Int
  is_punctuation : Bool
  speaker : String
  channel : String
deriving DecidableEq

/-- An entry of the `words` payload built by `get_words`. -/
structure WordPayload where
  word : String
  start_ms : Int
  duration_ms : Int
  stable : Bool
deriving DecidableEq

/-- `ASRResult` as the handlers populate it; the `metadata` dict is
modelled by the optional `speaker`/`channel` entries. -/
structure ASRResult where
  text : String
  final : Bool
  start_ms : Int
  duration_ms : Int
  language : String
  words : List WordPayload
  speaker : Option String
  channel : Option String
deriving DecidableEq

/-- One entry of `result["alternatives"]`. -/
structure SMAlternative where
  content : String
  speaker : String
deriving DecidableEq

/-- One well-formed entry of `msg["results"]`; `rtype` models
`result.get("type", "")` (provider times are seconds). -/
structure SMResult where
  alternatives : List SMAlternative
  start_time : ℚ
  end_time : ℚ
  rtype : String
  channel : String
  is_eos : Bool
deriving DecidableEq

/-- Modelled from the spec: `AudioTimeline.get_audio_duration_before_time`
(`ten_ai_base.timeline`) is not among the sources. Spec §4.2 specifies
`durationBeforeProviderTime(tMs)` as mapping a provider-relative timestamp
to session-absolute time by adding the folded base offset; the client keeps
that base in `sent_user_audio_duration_ms_before_last_reset` and adds it
itself, so the timeline's own contribution within one connection is the
identity on the provider-relative timestamp. -/
def get_audio_duration_before_time (t : ℚ) : ℚ := t

/-- `int(self.timeline.get_audio_duration_before_time(start_ms)
+ self.sent_user_audio_duration_ms_before_last_reset)` — `base` is the
client's `sent_user_audio_duration_ms_before_last_reset`. -/
def actual_start_ms (base : Int) (start_ms : ℚ) : Int :=
  truncQ (get_audio_duration_before_time start_ms + (base : ℚ))

/-- Modelled from the spec: `convert_words_to_sentence` lives in `word.py`,
which is not among the sources. Per spec §4.3, punctuation tokens attach
without a leading space and word tokens are space-joined (the `config`
argument of the original does not affect this joining rule). -/
def convert_words_to_sentence (ws : List SpeechmaticsASRWord) : String :=
  ws.foldl (fun acc w =>
    if acc = "" then w.word
    else if w.is_punctuation then acc ++ w.word
    else acc ++ " " ++ w.word) ""

/-- Modelled from the spec: `get_sentence_start_ms` (`word.py`, not among
the sources): the sentence start is the first token's absolute start. -/
def get_sentence_start_ms (ws : List SpeechmaticsASRWord) : Int :=
  match ws with
  | [] => 0
  | w :: _ => w.start_ms

/-- Modelled from the spec: `get_sentence_duration_ms` (`word.py`, not
among the sources): the duration spans first token start to last token
end. -/
def get_sentence_duration_ms (ws : List SpeechmaticsASRWord) : Int :=
  match ws.head?, ws.getLast? with
  | some a, some b => b.start_ms + b.duration_ms - a.start_ms
  | _, _ => 0

/-- `SpeechmaticsASRClient.get_words` (`asr_client.py` lines 643-657). -/
def get_words (ws : List SpeechmaticsASRWord) : List WordPayload :=
  ws.map (fun w => ⟨w.word, w.start_ms, w.duration_ms, true⟩)

/-- The speaker/channel extraction loop over cached words
(`asr_client.py` lines 547-553 and 579-585): the first non-empty value
wins; no entry is written when every value is empty. -/
def firstNonEmptyField (f : SpeechmaticsASRWord → String) :
    List SpeechmaticsASRWord → Option String
  | [] => none
  | w :: ws => if f w ≠ "" then some (f w) else firstNonEmptyField f ws

/-- The aggregated sentence segment (final flush or non-final preview)
built by `_handle_transcript_sentence_final_mode`. -/
def mkSentenceSegment (lang : String) (final : Bool)
    (ws : List SpeechmaticsASRWord) : ASRResult :=
  { text := convert_words_to_sentence ws
    final := final
    start_ms := get_sentence_start_ms ws
    duration_ms := get_sentence_duration_ms ws
    language := lang
    words := get_words ws
    speaker := firstNonEmptyField (fun w => w.speaker) ws
    channel := firstNonEmptyField (fun w => w.channel) ws }

/-- Processing of one well-formed entry of `msg["results"]` inside the
loop of `_handle_transcript_sentence_final_mode` (`asr_client.py` lines
510-569): append the first alternative as a cached word when its content
is non-empty, then on `is_eos` emit the aggregated final segment and clear
the cache. Returns the new cache and the segments emitted. -/
def processResult (base : Int) (lang : String)
    (cache : List SpeechmaticsASRWord) (r : SMResult) :
    List SpeechmaticsASRWord × List ASRResult :=
  let cache1 :=
    match r.alternatives with
    | [] => cache
    | a :: _ =>
        if a.content = "" then cache
        else cache ++ [{ word := a.content,
                         start_ms := actual_start_ms base (r.start_time * 1000),
                         duration_ms := truncQ (r.end_time * 1000 - r.start_time * 1000),
                         is_punctuation := r.rtype = "punctuation",
                         speaker := a.speaker,
                         channel := r.channel }]
  if r.is_eos then ([], [mkSentenceSegment lang true cache1])
  else (cache1, [])

/-- An entry of `msg["results"]`: either well-formed or malformed
(`RItem.bad` raises as soon as the loop body touches it). -/
inductive RItem
  | ok (r : SMResult)
  | bad
deriving DecidableEq

/-- Result of one `_handle_transcript_sentence_final_mode` call. -/
structure SFOut where
  cache : List SpeechmaticsASRWord
  emitted : List ASRResult
  errorCode : Option ModuleErrorCode
deriving DecidableEq

/-- The `for result in results` loop; a malformed entry aborts the loop
(the exception propagates to the handler's `except`), keeping the cache
as already mutated and the segments already scheduled. -/
def runResults (base : Int) (lang : String) :
    List RItem → List SpeechmaticsASRWord → SFOut
  | [], cache => ⟨cache, [], none⟩
  | RItem.bad :: _, cache => ⟨cache, [], some ModuleErrorCode.FATAL_ERROR⟩
  | RItem.ok r :: rest, cache =>
      let p := processResult base lang cache r
      let q := runResults base lang rest p.1
      ⟨q.cache, p.2 ++ q.emitted, q.errorCode⟩

/-- `_handle_transcript_sentence_final_mode` (`asr_client.py` lines
506-608): run the results loop; on an exception the `except` block emits a
`FATAL_ERROR` module error and the non-final preview is skipped; otherwise
a non-final preview of the remaining cache is emitted when the cache is
non-empty. -/
def handle_transcript_sentence_final_mode (base : Int) (lang : String)
    (cache : List SpeechmaticsASRWord) (items : List RItem) : SFOut :=
  let r := runResults base lang items cache
  match r.errorCode with
  | some code => ⟨r.cache, r.emitted, some code⟩
  | none =>
      if r.cache ≠ [] then
        ⟨r.cache, r.emitted ++ [mkSentenceSegment lang false r.cache], none⟩
      else ⟨r.cache, r.emitted, none⟩

/-- C1: in sentence-final mode, a message delivering the tokens `hello`,
`world` and the punctuation `.` with the last flagged end-of-utterance,
starting from an empty cache, emits exactly one segment — final, with text
`hello world.` — and leaves the pending cache empty, with no error. -/
theorem c1_sentence_final_hello_world (base : Int) (lang : String)
    (s1 s2 s3 ch1 ch2 ch3 : String) (t1 e1 t2 e2 t3 e3 : ℚ) :
    (handle_transcript_sentence_final_mode base lang []
        [RItem.ok ⟨[⟨"hello", s1⟩], t1, e1, "word", ch1, false⟩,
         RItem.ok ⟨[⟨"world", s2⟩], t2, e2, "word", ch2, false⟩,
         RItem.ok ⟨[⟨".", s3⟩], t3, e3, "punctuation", ch3, true⟩]).cache = []
    ∧ (handle_transcript_sentence_final_mode base lang []
        [RItem.ok ⟨[⟨"hello", s1⟩], t1, e1, "word", ch1, false⟩,
         RItem.ok ⟨[⟨"world", s2⟩], t2, e2, "word", ch2, false⟩,
         RItem.ok ⟨[⟨".", s3⟩], t3, e3, "punctuation", ch3, true⟩]).errorCode = none
    ∧ (handle_transcript_sentence_final_mode base lang []
        [RItem.ok ⟨[⟨"hello", s1⟩], t1, e1, "word", ch1, false⟩,
         RItem.ok ⟨[⟨"world", s2⟩], t2, e2, "word", ch2, false⟩,
         RItem.ok ⟨[⟨".", s3⟩], t3, e3, "punctuation", ch3, true⟩]).emitted.map
          (fun r => (r.text, r.final)) = [("hello world.", true)] :=
  ⟨rfl, rfl, rfl⟩

/-- The results loop on `good ++ bad :: rest`: the well-formed prefix is
processed normally, the malformed entry aborts the loop with the cache as
already mutated and the segments already scheduled. -/
lemma runResults_stops_at_bad (base : Int) (lang : String)
    (good : List SMResult) (rest : List RItem) (cache : List SpeechmaticsASRWord) :
    runResults base lang (good.map RItem.ok ++ RItem.bad :: rest) cache
      = ⟨(runResults base lang (good.map RItem.ok) cache).cache,
         (runResults base lang (good.map RItem.ok) cache).emitted,
         some ModuleErrorCode.FATAL_ERROR⟩ := by
  induction good generalizing cache with
  | nil => rfl
  | cons r good ih =>
      simp only [List.map_cons, List.cons_append, runResults, List.append_eq, ih]

/-- C7 (amended): a malformed entry in a sentence-final message is caught
and surfaced as a `FATAL_ERROR` module error (not a non-fatal one);
processing stops at the malformed entry (later entries are not processed
and no non-final preview is emitted), and the pending cache keeps exactly
the words appended by the well-formed entries before the failure — it is
not rolled back to its pre-message contents. -/
theorem c7_malformed_message (base : Int) (lang : String)
    (cache : List SpeechmaticsASRWord) (good : List SMResult) (rest : List RItem) :
    handle_transcript_sentence_final_mode base lang cache
        (good.map RItem.ok ++ RItem.bad :: rest)
      = ⟨(runResults base lang (good.map RItem.ok) cache).cache,
         (runResults base lang (good.map RItem.ok) cache).emitted,
         some ModuleErrorCode.FATAL_ERROR⟩ := by
  unfold handle_transcript_sentence_final_mode
  rw [runResults_stops_at_bad]

/-- C7 counterexample: on a message whose first entry appends `hello` to
the cache and whose second entry is malformed, the pending cache is NOT
left as it was before the message (the appended word stays), and the
surfaced error is `FATAL_ERROR`, not non-fatal. -/
theorem c7_counterexample :
    (handle_transcript_sentence_final_mode 0 "en" []
        [RItem.ok ⟨[⟨"hello", ""⟩], 0, 1, "word", "", false⟩, RItem.bad]).cache ≠ []
    ∧ (handle_transcript_sentence_final_mode 0 "en" []
        [RItem.ok ⟨[⟨"hello", ""⟩], 0, 1, "word", "", false⟩, RItem.bad]).errorCode
        = some ModuleErrorCode.FATAL_ERROR
    ∧ (handle_transcript_sentence_final_mode 0 "en" []
        [RItem.ok ⟨[⟨"hello", ""⟩], 0, 1, "word", "", false⟩, RItem.bad]).errorCode
        ≠ some ModuleErrorCode.NON_FATAL_ERROR := by
  refine ⟨by decide, rfl, by decide⟩

lemma firstNonEmptyField_eq_none {f : SpeechmaticsASRWord → String}
    {ws : List SpeechmaticsASRWord} (h : ∀ w ∈ ws, f w = "") :
    firstNonEmptyField f ws = none := by
  induction ws with
  | nil => rfl
  | cons w ws ih =>
      unfold firstNonEmptyField
      rw [if_neg (by simp [h w (List.mem_cons_self w ws)]),
          ih (fun x hx => h x (List.mem_cons_of_mem w hx))]

/-- C10: two independent guarantees for aggregated sentence segments —
final flush or non-final preview alike: when none of the cached words
carries a non-empty speaker, the segment has no speaker metadata entry at
all, and when none carries a non-empty channel, it has no channel entry —
each regardless of the other field; in particular the `NONE` sentinel used
by the partial and word-final extraction paths is never inserted for
aggregated sentences. -/
theorem c10_no_sentinel_for_sentences (lang : String) (final : Bool)
    (ws : List SpeechmaticsASRWord) :
    ((∀ w ∈ ws, w.speaker = "") → (mkSentenceSegment lang final ws).speaker = none)
    ∧ ((∀ w ∈ ws, w.channel = "") → (mkSentenceSegment lang final ws).channel = none) :=
  ⟨fun hs => firstNonEmptyField_eq_none hs, fun hc => firstNonEmptyField_eq_none hc⟩

theorem c10_no_sentinel_for_sentences_witness :
    (mkSentenceSegment "en" true [⟨"hi", 0, 0, false, "S1", ""⟩]).channel = none
    ∧ (mkSentenceSegment "en" true [⟨"hi", 0, 0, false, "", "ch0"⟩]).speaker = none :=
  ⟨(c10_no_sentinel_for_sentences "en" true [⟨"hi", 0, 0, false, "S1", ""⟩]).2 (by decide),
   (c10_no_sentinel_for_sentences "en" true [⟨"hi", 0, 0, false, "", "ch0"⟩]).1 (by decide)⟩

/-! ## Word-final mode and partial transcripts -/

/-- The fields of a partial/word-final provider message that
`_handle_partial_transcript` and `_handle_transcript_word_final_mode`
read: `metadata["transcript"]`, `metadata["start_time"]`,
`metadata["end_time"]` and `results` (speaker extraction only). -/
structure WFMsg where
  transcript : String
  start_time : ℚ
  end_time : ℚ
  results : List SMResult
deriving DecidableEq

/-- Speaker extraction for partial/word-final messages (`asr_client.py`
lines 406-423 and 464-479): the first alternative of the first result
entry, stripped, when non-empty; otherwise the explicit sentinel
`NONE`. -/
def extract_speaker (results : List SMResult) : String :=
  match results with
  | [] => "NONE"
  | r :: _ =>
      match r.alternatives with
      | [] => "NONE"
      | a :: _ => if a.speaker.trim ≠ "" then a.speaker.trim else "NONE"

/-- `_handle_transcript_word_final_mode` (`asr_client.py` lines 447-504):
empty transcripts are dropped; otherwise exactly one final segment
carrying the whole message transcript, empty word payload and the
`speaker` metadata entry (always present, possibly `NONE`). -/
def handle_transcript_word_final_mode (base : Int) (lang : String)
    (m : WFMsg) : Option ASRResult :=
  if m.transcript = "" then none
  else some
    { text := m.transcript
      final := true
      start_ms := actual_start_ms base (m.start_time * 1000)
      duration_ms := truncQ (m.end_time * 1000 - m.start_time * 1000)
      language := lang
      words := []
      speaker := some (extract_speaker m.results)
      channel := none }

/-- `_handle_partial_transcript` (`asr_client.py` lines 388-445): like the
word-final handler but with `final := False`. -/
def handle_partial_transcript (base : Int) (lang : String)
    (m : WFMsg) : Option ASRResult :=
  if m.transcript = "" then none
  else some
    { text := m.transcript
      final := false
      start_ms := actual_start_ms base (m.start_time * 1000)
      duration_ms := truncQ (m.end_time * 1000 - m.start_time * 1000)
      language := lang
      words := []
      speaker := some (extract_speaker m.results)
      channel := none }

/-- The event loop dispatching a sequence of `AddTranscript` messages to
the word-final handler, collecting the segments emitted. -/
def runWordFinal (base : Int) (lang : String) : List WFMsg → List ASRResult
  | [] => []
  | m :: ms =>
      match handle_transcript_word_final_mode base lang m with
      | some r => r :: runWordFinal base lang ms
      | none => runWordFinal base lang ms

/-- C8: in word-final mode, a sequence of provider final-word messages
(each carrying one non-empty word as its transcript) yields exactly one
final segment per message, each containing exactly that message's word,
in input order. -/
theorem c8_word_final_one_segment_per_word (base : Int) (lang : String)
    (msgs : List WFMsg) (h : ∀ m ∈ msgs, m.transcript ≠ "") :
    (runWordFinal base lang msgs).map (fun r => (r.text, r.final))
      = msgs.map (fun m => (m.transcript, true)) := by
  induction msgs with
  | nil => rfl
  | cons m msgs ih =>
      have hm : ¬ m.transcript = "" := h m (List.mem_cons_self m msgs)
      simp only [runWordFinal, handle_transcript_word_final_mode, if_neg hm, List.map_cons]
      exact congrArg (List.cons _) (ih (fun x hx => h x (List.mem_cons_of_mem m hx)))

theorem c8_word_final_one_segment_per_word_witness :
    (runWordFinal 0 "en" [⟨"hello", 0, 1, []⟩, ⟨"world", 1, 2, []⟩]).map
        (fun r => (r.text, r.final))
      = [("hello", true), ("world", true)] :=
  c8_word_final_one_segment_per_word 0 "en" [⟨"hello", 0, 1, []⟩, ⟨"world", 1, 2, []⟩]
    (by decide)

/-! ## Audio dispatch gating (`extension.py`, `send_audio`) -/

/-- The connection-state booleans consulted by
`SpeechmaticsASRClient.is_connected` (`asr_client.py` lines 675-695);
`clientExists` models `self.client is not None` on the extension. -/
structure ConnFlags where
  clientExists : Bool
  client_needs_stopping : Bool
  connected : Bool
  websocket_connected : Bool
  session_running : Bool
deriving DecidableEq

/-- `SpeechmaticsASRExtension.is_connected` (`extension.py` lines 485-491)
delegating to `SpeechmaticsASRClient.is_connected` (`asr_client.py` lines
675-695). -/
def is_connected (f : ConnFlags) : Bool :=
  if f.clientExists = false then false
  else if f.client_needs_stopping then false
  else if f.connected = false && f.websocket_connected = false then false
  else f.session_running

/-- Outcome of `send_audio`: dropped with a periodic warning (returns
`False`), or handed to `recv_audio_frame` (conditioning + enqueue). -/
inductive SendOutcome
  | droppedNotConnected
  | delivered (r : RecvResult)
deriving DecidableEq

/-- `SpeechmaticsASRExtension.send_audio` (`extension.py` lines 504-560):
every frame arriving while `is_connected()` is false is dropped; only
frames arriving while connected reach the client's audio path. -/
def send_audio (gain : ℚ) (f : ConnFlags) (buf : List Nat) : SendOutcome :=
  if is_connected f = false then SendOutcome.droppedNotConnected
  else SendOutcome.delivered (recv_audio_frame gain buf)

/-- C9 counterexample: a frame arriving while the client exists and is not
stopping (not `Closed`/`Failed`) but is not yet connected — e.g. while the
websocket is still connecting — is dropped, not queued. -/
theorem c9_counterexample :
    send_audio 7 ⟨true, false, false, false, false⟩ [1]
        = SendOutcome.droppedNotConnected
    ∧ send_audio 7 ⟨true, false, false, false, false⟩ [1]
        ≠ SendOutcome.delivered (recv_audio_frame 7 [1]) := by
  refine ⟨rfl, by decide⟩

/-- C9 (amended): frames delivered while `is_connected()` holds are
conditioned and enqueued via `recv_audio_frame`; every frame delivered
while not connected — including while connecting or reconnecting, not only
after close/failure — is dropped with a periodic warning. -/
theorem c9_audio_gating (gain : ℚ) (f : ConnFlags) (buf : List Nat) :
    (is_connected f = true →
        send_audio gain f buf = SendOutcome.delivered (recv_audio_frame gain buf))
    ∧ (is_connected f = false →
        send_audio gain f buf = SendOutcome.droppedNotConnected) := by
  constructor <;> intro h <;> simp [send_audio, h]

theorem c9_audio_gating_witness :
    send_audio 7 ⟨true, false, true, true, true⟩ [1]
        = SendOutcome.delivered (recv_audio_frame 7 [1])
    ∧ send_audio 7 ⟨true, false, false, false, false⟩ [1]
        = SendOutcome.droppedNotConnected :=
  ⟨(c9_audio_gating 7 ⟨true, false, true, true, true⟩ [1]).1 rfl,
   (c9_audio_gating 7 ⟨true, false, false, false, false⟩ [1]).2 rfl⟩

/-! ## Timeline reconciliation across reconnects

`AudioTimeline` itself is not among the sources (see
`get_audio_duration_before_time`); the client-side bookkeeping is:
`_handle_recognition_started` adds the timeline's total user audio
duration to `sent_user_audio_duration_ms_before_last_reset` and resets the
timeline, and each emission computes
`int(get_audio_duration_before_time(start_ms) + base)`
(i.e. `actual_start_ms`). A session is a sequence of connections separated
by `RecognitionStarted` events. -/

/-- One event on a single provider connection: audio submitted (advancing
the timeline's total-user-audio cursor via the transmit path), or a
transcript emission with a provider-relative timestamp in milliseconds. -/
inductive ConnEvent
  | audio (d : Nat)
  | emit (t : ℚ)

/-- Run one connection: emissions produce `actual_start_ms base t`; audio
advances the cursor. Returns the emitted absolute starts (in order) and
the final cursor (the timeline's total user audio duration folded into the
base at the next reset). -/
def runConn (base : Int) : List ConnEvent → Int → List Int × Int
  | [], cursor => ([], cursor)
  | ConnEvent.audio d :: es, cursor => runConn base es (cursor + (d : Int))
  | ConnEvent.emit t :: es, cursor =>
      let r := runConn base es cursor
      (actual_start_ms base t :: r.1, r.2)

/-- Run a whole session: at each connection boundary
(`_handle_recognition_started`, `asr_client.py` lines 377-386) the cursor
is folded into `sent_user_audio_duration_ms_before_last_reset` and the
cursor restarts at zero. -/
def runSession : Int → List (List ConnEvent) → List Int
  | _, [] => []
  | base, conn :: conns =>
      let r := runConn base conn 0
      r.1 ++ runSession (base + r.2) conns

/-- The hypothesis of the claim as stated: provider-relative timestamps
within one connection are non-decreasing (`last` carries the previous
timestamp, initially 0). -/
def connNonDecb : ℚ → List ConnEvent → Bool
  | _, [] => true
  | last, ConnEvent.audio _ :: es => connNonDecb last es
  | last, ConnEvent.emit t :: es => decide (last ≤ t) && connNonDecb t es

/-- The amended hypothesis: within one connection the provider-relative
timestamps are non-decreasing (hence nonnegative) and each one is bounded
by the audio duration submitted so far on that connection. -/
def connOKb : ℚ → Int → List ConnEvent → Bool
  | _, _, [] => true
  | last, cursor, ConnEvent.audio d :: es => connOKb last (cursor + (d : Int)) es
  | last, cursor, ConnEvent.emit t :: es =>
      decide (last ≤ t) && decide (t ≤ (cursor : ℚ)) && connOKb t cursor es

lemma runConn_props (base : Int) :
    ∀ (es : List ConnEvent) (last : ℚ) (cursor : Int),
      0 ≤ last → connOKb last cursor es = true →
      List.Sorted (fun a b => a ≤ b) (runConn base es cursor).1
      ∧ (∀ x ∈ (runConn base es cursor).1,
            truncQ (last + (base : ℚ)) ≤ x ∧ x ≤ base + (runConn base es cursor).2)
      ∧ cursor ≤ (runConn base es cursor).2 := by
  intro es
  induction es with
  | nil =>
      intro last cursor h0 h2
      exact ⟨List.sorted_nil, by simp [runConn], le_refl _⟩
  | cons e es ih =>
      intro last cursor h0 h2
      cases e with
      | audio d =>
          simp only [runConn]
          simp only [connOKb] at h2
          obtain ⟨ha, hb, hc⟩ := ih last (cursor + (d : Int)) h0 h2
          exact ⟨ha, hb, le_trans (by omega) hc⟩
      | emit t =>
          simp only [runConn]
          simp only [connOKb, Bool.and_eq_true, decide_eq_true_eq] at h2
          obtain ⟨⟨hlt, htc⟩, hrest⟩ := h2
          obtain ⟨ha, hb, hc⟩ := ih t cursor (le_trans h0 hlt) hrest
          have hhead : actual_start_ms base t = truncQ (t + (base : ℚ)) := rfl
          refine ⟨?_, ?_, hc⟩
          · rw [List.sorted_cons]
            refine ⟨fun b hbmem => ?_, ha⟩
            rw [hhead]
            exact (hb b hbmem).1
          · intro x hx
            rcases List.mem_cons.mp hx with rfl | hx
            · rw [hhead]
              constructor
              · exact truncQ_mono (add_le_add_right hlt _)
              · have hcast : (cursor : ℚ) ≤ ((runConn base es cursor).2 : ℚ) := by
                  exact_mod_cast hc
                have hq : (t : ℚ) + (base : ℚ)
                    ≤ (((base + (runConn base es cursor).2) : Int) : ℚ) := by
                  push_cast
                  linarith
                exact truncQ_le_of_le_int hq
            · exact ⟨le_trans (truncQ_mono (add_le_add_right hlt _)) ((hb x hx).1),
                     (hb x hx).2⟩

lemma runSession_props :
    ∀ (conns : List (List ConnEvent)) (base : Int),
      (∀ conn ∈ conns, connOKb 0 0 conn = true) →
      List.Sorted (fun a b => a ≤ b) (runSession base conns)
      ∧ ∀ x ∈ runSession base conns, base ≤ x := by
  intro conns
  induction conns with
  | nil =>
      intro base h
      exact ⟨List.sorted_nil, by simp [runSession]⟩
  | cons conn conns ih =>
      intro base h
      have hconn := h conn (List.mem_cons_self conn conns)
      obtain ⟨ha, hb, hc⟩ := runConn_props base conn 0 0 (le_refl 0) hconn
      obtain ⟨hs, hlow⟩ :=
        ih (base + (runConn base conn 0).2) (fun x hx => h x (List.mem_cons_of_mem conn hx))
      have hbase : truncQ ((0 : ℚ) + (base : ℚ)) = base := by
        rw [zero_add, truncQ_intCast]
      simp only [runSession]
      constructor
      · apply List.pairwise_append.mpr
        refine ⟨ha, hs, ?_⟩
        intro x hx y hy
        exact le_trans ((hb x hx).2) (hlow y hy)
      · intro x hx
        rcases List.mem_append.mp hx with hx | hx
        · have := (hb x hx).1
          rw [hbase] at this
          exact this
        · have h1 := hlow x hx
          omega

/-- C2 counterexample: under the spec's timeline model, timestamps that
are non-decreasing within each connection do not make absolute starts
non-decreasing across a reset: a first-connection timestamp of 1000 ms
with no audio submitted, then a reset, then a second-connection timestamp
of 0 ms yields absolute starts 1000 followed by 0. -/
theorem c2_counterexample :
    connNonDecb 0 [ConnEvent.emit 1000] = true
    ∧ connNonDecb 0 [ConnEvent.emit 0] = true
    ∧ runSession 0 [[ConnEvent.emit 1000], [ConnEvent.emit 0]] = [1000, 0]
    ∧ ¬ List.Sorted (fun a b => a ≤ b) ([1000, 0] : List Int) := by
  refine ⟨?_, ?_, ?_, by decide⟩
  · simp [connNonDecb]
  · simp [connNonDecb]
  · simp only [runSession, runConn, actual_start_ms, get_audio_duration_before_time]
    norm_num [truncQ]

/-- C2 (amended): the absolute start timestamps emitted across any number
of timeline resets are non-decreasing (every later segment's start is at
least every earlier segment's start), provided that within each connection
the provider-relative timestamps are non-decreasing AND each timestamp is
bounded by the audio duration submitted so far on that connection. The
extra bound is necessary: see the counterexample for the claim as
stated. -/
theorem c2_timeline_monotonic (base : Int) (conns : List (List ConnEvent))
    (h : ∀ conn ∈ conns, connOKb 0 0 conn = true) :
    List.Sorted (fun a b => a ≤ b) (runSession base conns) :=
  (runSession_props conns base h).1

theorem c2_timeline_monotonic_witness :
    List.Sorted (fun a b => a ≤ b)
      (runSession 0 [[ConnEvent.audio 1000, ConnEvent.emit 500],
                     [ConnEvent.audio 300, ConnEvent.emit 200]]) :=
  c2_timeline_monotonic 0
    [[ConnEvent.audio 1000, ConnEvent.emit 500],
     [ConnEvent.audio 300, ConnEvent.emit 200]]
    (by
      intro conn hconn
      rcases List.mem_cons.mp hconn with rfl | hconn
      · norm_num [connOKb]
      · rcases List.mem_cons.mp hconn with rfl | hconn
        · norm_num [connOKb]
        · exact absurd hconn (List.not_mem_nil conn))

end SpeechmaticsASR
